import Mathlib

/-!
Verification of the rule-based core of the contract-intelligence system:
the text chunker (`app/services/pdf_processor.py`), the rule-based risk
auditor (`app/services/audit_service.py`), the rule-based field extractor
(`app/services/extraction_service.py`) and the RAG answer flow
(`app/services/rag_service.py`).

Texts are modelled as `List Char`.  Python `re` patterns are modelled by a
small regex AST (`RE`) together with a backtracking matcher (`reM`) that
follows Python's strategy: leftmost start position wins, alternatives are
tried left to right, greedy repetition prefers more iterations, lazy
repetition prefers fewer.  `re.IGNORECASE` is modelled by comparing
characters through `Char.toLower` (ASCII case folding); `\d`, `\s` and
character classes are modelled over their ASCII meaning.  Unbounded
repetitions (`+`, `*`) are instantiated with the length of the subject
text as an explicit upper bound, which matches on every subject since no
match can consume more characters than the text has.
-/

namespace ContractIntel

/-! ## Text chunker (`PDFProcessor.chunk_text`) -/

/-- One chunk produced by `PDFProcessor.chunk_text`: the dict
`{"text": ..., "start_char": ..., "end_char": ..., "chunk_index": ...}`. -/
structure Chunk where
  text : List Char
  start_char : Nat
  end_char : Nat
  chunk_index : Nat
deriving DecidableEq, Repr

/-- The `while start < len(text)` loop of `PDFProcessor.chunk_text`, with an
explicit fuel parameter standing for the number of loop iterations still
allowed; `none` means the fuel ran out before the loop finished.  Each
iteration emits `text[start:start+chunk_size]` with its offsets and the
running index and then advances `start` by `chunk_size - overlap`
(truncated subtraction, as the Python loop never terminates when
`chunk_size <= overlap`). -/
def chunkStep (text : List Char) (chunkSize overlap : Nat) :
    Nat → Nat → Nat → Option (List Chunk)
  | 0, _, _ => none
  | fuel + 1, start, idx =>
    if start < text.length then
      match chunkStep text chunkSize overlap fuel (start + (chunkSize - overlap)) (idx + 1) with
      | none => none
      | some rest =>
          some (⟨(text.drop start).take chunkSize, start,
                 min (start + chunkSize) text.length, idx⟩ :: rest)
    else
      some []

/-- `PDFProcessor.chunk_text(text, chunk_size, overlap)`: run the loop with
`length + 1` iterations of fuel, which is enough whenever
`overlap < chunk_size` (see `chunkStep_total`). -/
def chunk_text (text : List Char) (chunkSize overlap : Nat) : List Chunk :=
  (chunkStep text chunkSize overlap (text.length + 1) 0 0).getD []

/-- Reconstruction operator of the chunking round-trip property: the first
chunk's text, followed by every later chunk's text with its first
`overlap` characters removed. -/
def reconstruct (overlap : Nat) : List Chunk → List Char
  | [] => []
  | c :: rest => c.text ++ (rest.map (fun d => d.text.drop overlap)).flatten

/-- Fuel sufficiency for the chunking loop: when the window advances by a
positive step, `text.length - start` bounds the remaining iterations. -/
theorem chunkStep_total (text : List Char) (chunkSize overlap : Nat)
    (hov : overlap < chunkSize) :
    ∀ fuel start idx, text.length - start < fuel →
      ∃ cks, chunkStep text chunkSize overlap fuel start idx = some cks := by
  intro fuel
  induction fuel with
  | zero => intro start idx h; omega
  | succ fuel ih =>
      intro start idx h
      by_cases hs : start < text.length
      · obtain ⟨rest, hrest⟩ :=
          ih (start + (chunkSize - overlap)) (idx + 1) (by omega)
        refine ⟨⟨(text.drop start).take chunkSize, start,
                 min (start + chunkSize) text.length, idx⟩ :: rest, ?_⟩
        simp only [chunkStep, if_pos hs, hrest]
      · exact ⟨[], by simp [chunkStep, hs]⟩

/-- The telescoping lemma behind chunk reconstruction: gluing the chunks
produced from position `start` onwards, each with its first `overlap`
characters removed, yields exactly `text.drop (start + overlap)`. -/
theorem chunkStep_glue (text : List Char) (chunkSize overlap : Nat)
    (hov : overlap < chunkSize) :
    ∀ fuel start idx cks,
      chunkStep text chunkSize overlap fuel start idx = some cks →
      (cks.map (fun d => d.text.drop overlap)).flatten = text.drop (start + overlap) := by
  intro fuel
  induction fuel with
  | zero => intro start idx cks h; simp [chunkStep] at h
  | succ fuel ih =>
      intro start idx cks h
      by_cases hs : start < text.length
      · simp only [chunkStep, if_pos hs] at h
        cases hrec : chunkStep text chunkSize overlap fuel
            (start + (chunkSize - overlap)) (idx + 1) with
        | none => simp [hrec] at h
        | some rest =>
            simp only [hrec] at h
            cases h
            have hrest := ih _ _ _ hrec
            simp only [List.map_cons, List.flatten_cons]
            rw [hrest]
            rw [List.drop_take]
            rw [List.drop_drop]
            have h1 : start + (chunkSize - overlap) + overlap = start + chunkSize := by omega
            rw [h1]
            have h2 : List.drop (start + chunkSize) text
                = List.drop (chunkSize - overlap) (List.drop (start + overlap) text) := by
              rw [List.drop_drop]
              congr 1
              omega
            rw [h2]
            exact List.take_append_drop _ _
      · simp only [chunkStep, if_neg hs] at h
        cases h
        simp
        omega

/-- Every chunk in the loop's output is the exact slice
`text[start_char:end_char]` of the source text. -/
theorem chunkStep_slices (text : List Char) (chunkSize overlap : Nat) :
    ∀ fuel start idx cks,
      chunkStep text chunkSize overlap fuel start idx = some cks →
      ∀ c ∈ cks, c.text = (text.drop c.start_char).take (c.end_char - c.start_char) := by
  intro fuel
  induction fuel with
  | zero => intro start idx cks h; simp [chunkStep] at h
  | succ fuel ih =>
      intro start idx cks h
      by_cases hs : start < text.length
      · simp only [chunkStep, if_pos hs] at h
        cases hrec : chunkStep text chunkSize overlap fuel
            (start + (chunkSize - overlap)) (idx + 1) with
        | none => simp [hrec] at h
        | some rest =>
            simp only [hrec] at h
            cases h
            intro c hc
            rcases List.mem_cons.mp hc with hc | hc
            · subst hc
              simp only
              have hlen : (text.drop start).length = text.length - start :=
                List.length_drop ..
              rcases Nat.le_total (start + chunkSize) text.length with hle | hle
              · have : min (start + chunkSize) text.length - start = chunkSize := by omega
                rw [this]
              · have hmin : min (start + chunkSize) text.length - start
                    = text.length - start := by omega
                rw [hmin]
                rw [List.take_of_length_le (by omega), List.take_of_length_le (by omega)]
            · exact ih _ _ _ hrec c hc
      · simp only [chunkStep, if_neg hs] at h
        cases h
        intro c hc
        simp at hc

/-- Reconstructing the chunks produced from position `start` (first chunk
kept whole, later chunks with their first `overlap` characters removed)
yields exactly `text.drop start`. -/
theorem chunkStep_reconstruct (text : List Char) (chunkSize overlap : Nat)
    (hov : overlap < chunkSize) :
    ∀ fuel start idx cks,
      chunkStep text chunkSize overlap fuel start idx = some cks →
      reconstruct overlap cks = text.drop start := by
  intro fuel start idx cks h
  match fuel with
  | 0 => simp [chunkStep] at h
  | fuel + 1 =>
    by_cases hs : start < text.length
    · simp only [chunkStep, if_pos hs] at h
      cases hrec : chunkStep text chunkSize overlap fuel
          (start + (chunkSize - overlap)) (idx + 1) with
      | none => simp [hrec] at h
      | some rest =>
          simp only [hrec] at h
          cases h
          have hglue := chunkStep_glue text chunkSize overlap hov fuel _ _ _ hrec
          simp only [reconstruct]
          rw [hglue]
          have h1 : start + (chunkSize - overlap) + overlap = start + chunkSize := by omega
          rw [h1]
          have h2 : List.drop (start + chunkSize) text
              = List.drop chunkSize (List.drop start text) := by
            rw [List.drop_drop]
            try congr 1
            try omega
          rw [h2]
          exact List.take_append_drop _ _
    · simp only [chunkStep, if_neg hs] at h
      cases h
      simp only [reconstruct]
      rw [eq_comm, List.drop_eq_nil_iff]
      omega

/-- C1: for every text `T`, `chunk_size > 0` and `0 <= overlap < chunk_size`,
the chunks of `PDFProcessor.chunk_text` reconstruct `T` exactly
(first chunk whole, each later chunk minus its first `overlap`
characters); each chunk's text is the exact slice
`T[start_char:end_char]`; and empty `T` yields zero chunks. -/
theorem chunk_text_reconstructs (text : List Char) (chunkSize overlap : Nat)
    (hcs : 0 < chunkSize) (hov : overlap < chunkSize) :
    reconstruct overlap (chunk_text text chunkSize overlap) = text ∧
    (text = [] → chunk_text text chunkSize overlap = []) ∧
    ∀ c ∈ chunk_text text chunkSize overlap,
      c.text = (text.drop c.start_char).take (c.end_char - c.start_char) := by
  obtain ⟨cks, hcks⟩ :=
    chunkStep_total text chunkSize overlap hov (text.length + 1) 0 0 (by omega)
  have hct : chunk_text text chunkSize overlap = cks := by
    simp [chunk_text, hcks]
  refine ⟨?_, ?_, ?_⟩
  · rw [hct]
    have := chunkStep_reconstruct text chunkSize overlap hov _ _ _ _ hcks
    simpa using this
  · intro he
    subst he
    have h1 : chunkStep ([] : List Char) chunkSize overlap 1 0 0 = some [] := by
      simp [chunkStep]
    injection h1.symm.trans hcks with h2
    rw [hct, ← h2]
  · rw [hct]
    exact chunkStep_slices text chunkSize overlap _ _ _ _ hcks

/-- Concrete witness for C1 at `T = "abcdef"`, `chunk_size = 3`,
`overlap = 1`. -/
theorem chunk_text_reconstructs_witness :
    0 < 3 ∧ 1 < 3 ∧
    (reconstruct 1 (chunk_text "abcdef".toList 3 1) = "abcdef".toList ∧
     ("abcdef".toList = [] → chunk_text "abcdef".toList 3 1 = []) ∧
     ∀ c ∈ chunk_text "abcdef".toList 3 1,
       c.text = ("abcdef".toList.drop c.start_char).take (c.end_char - c.start_char)) :=
  ⟨by omega, by omega, chunk_text_reconstructs "abcdef".toList 3 1 (by omega) (by omega)⟩

/-- C7: under `chunk_size > 0` and `0 <= overlap < chunk_size` the loop of
`PDFProcessor.chunk_text` advances by the positive step
`chunk_size - overlap` each iteration, and `text.length + 1` iterations of
fuel always suffice: the loop terminates with a finite chunk list on every
input. -/
theorem chunk_text_terminates (text : List Char) (chunkSize overlap : Nat)
    (hcs : 0 < chunkSize) (hov : overlap < chunkSize) :
    0 < chunkSize - overlap ∧
    ∃ cks, chunkStep text chunkSize overlap (text.length + 1) 0 0 = some cks ∧
      chunk_text text chunkSize overlap = cks := by
  obtain ⟨cks, hcks⟩ :=
    chunkStep_total text chunkSize overlap hov (text.length + 1) 0 0 (by omega)
  exact ⟨by omega, cks, hcks, by simp [chunk_text, hcks]⟩

/-- Concrete witness for C7 at `T = "hello"`, `chunk_size = 2`,
`overlap = 0`. -/
theorem chunk_text_terminates_witness :
    0 < 2 ∧ 0 < 2 ∧
    (0 < 2 - 0 ∧
     ∃ cks, chunkStep "hello".toList 2 0 ("hello".toList.length + 1) 0 0 = some cks ∧
       chunk_text "hello".toList 2 0 = cks) :=
  ⟨by omega, by omega, chunk_text_terminates "hello".toList 2 0 (by omega) (by omega)⟩

/-- Two chunking runs over the same text with the same overlap: the run with
the larger chunk size never produces more chunks, whatever position each
run has reached (the larger run's position being at least the smaller
run's). -/
theorem chunkStep_length_antitone (text : List Char) (overlap s1 s2 : Nat)
    (h1 : overlap < s1) (h12 : s1 ≤ s2) :
    ∀ fuel1 fuel2 start1 start2 idx1 idx2 l1 l2, start1 ≤ start2 →
      chunkStep text s1 overlap fuel1 start1 idx1 = some l1 →
      chunkStep text s2 overlap fuel2 start2 idx2 = some l2 →
      l2.length ≤ l1.length := by
  intro fuel1
  induction fuel1 with
  | zero =>
      intro fuel2 start1 start2 idx1 idx2 l1 l2 _ ha _
      simp [chunkStep] at ha
  | succ fuel ih =>
      intro fuel2 start1 start2 idx1 idx2 l1 l2 hle ha hb
      by_cases hs1 : start1 < text.length
      · simp only [chunkStep, if_pos hs1] at ha
        cases hra : chunkStep text s1 overlap fuel (start1 + (s1 - overlap)) (idx1 + 1) with
        | none => simp [hra] at ha
        | some rest1 =>
            simp only [hra] at ha
            cases ha
            by_cases hs2 : start2 < text.length
            · cases fuel2 with
              | zero => simp [chunkStep] at hb
              | succ fuel2' =>
                  simp only [chunkStep, if_pos hs2] at hb
                  cases hrb : chunkStep text s2 overlap fuel2'
                      (start2 + (s2 - overlap)) (idx2 + 1) with
                  | none => simp [hrb] at hb
                  | some rest2 =>
                      simp only [hrb] at hb
                      cases hb
                      have := ih fuel2' _ _ _ _ _ _ (by omega) hra hrb
                      simpa using this
            · cases fuel2 with
              | zero => simp [chunkStep] at hb
              | succ f2 =>
                  simp only [chunkStep, if_neg hs2] at hb
                  cases hb
                  simp
      · simp only [chunkStep, if_neg hs1] at ha
        cases ha
        have hs2 : ¬ start2 < text.length := by omega
        cases fuel2 with
        | zero => simp [chunkStep] at hb
        | succ f2 =>
            simp only [chunkStep, if_neg hs2] at hb
            cases hb
            simp

/-- C8: for fixed overlap, the chunk count of `PDFProcessor.chunk_text` is
non-increasing as the chunk size increases. -/
theorem chunk_text_count_antitone (text : List Char) (overlap s1 s2 : Nat)
    (h1 : overlap < s1) (h12 : s1 ≤ s2) :
    (chunk_text text s2 overlap).length ≤ (chunk_text text s1 overlap).length := by
  obtain ⟨l1, hl1⟩ :=
    chunkStep_total text s1 overlap h1 (text.length + 1) 0 0 (by omega)
  obtain ⟨l2, hl2⟩ :=
    chunkStep_total text s2 overlap (by omega) (text.length + 1) 0 0 (by omega)
  rw [chunk_text, chunk_text, hl1, hl2]
  exact chunkStep_length_antitone text overlap s1 s2 h1 h12 _ _ _ _ 0 0 _ _
    (Nat.le_refl 0) hl1 hl2

/-- Concrete witness for C8 at `T = "abcdefgh"`, `overlap = 1`, sizes
`3 <= 5`. -/
theorem chunk_text_count_antitone_witness :
    1 < 3 ∧ 3 ≤ 5 ∧
    (chunk_text "abcdefgh".toList 5 1).length ≤ (chunk_text "abcdefgh".toList 3 1).length :=
  ⟨by omega, by omega, chunk_text_count_antitone "abcdefgh".toList 1 3 5 (by omega) (by omega)⟩

/-! ## Regex engine

A small AST for the Python `re` patterns used by the services, with a
backtracking matcher in continuation-passing style that mirrors Python's
strategy: alternatives left to right, greedy repetition prefers more
iterations, lazy repetition prefers fewer, leftmost start position wins. -/

/-- Capture environment: group index paired with the captured substring,
most recent capture first. -/
abbrev Caps := List (Nat × List Char)

/-- Look up the most recent capture of group `i` (Python `match.group(i)`,
`none` when the group did not participate in the match). -/
def capsGet (caps : Caps) (i : Nat) : Option (List Char) :=
  (caps.find? (fun p => p.1 = i)).map (fun p => p.2)

/-- Regex AST: empty string, single-character class, concatenation,
alternation, and numbered capture group.  Bounded repetition is desugared
into this AST by `repRE` below, preserving Python's backtracking
preference order. -/
inductive RE : Type where
  | eps : RE
  | cls : (Char → Bool) → RE
  | cat : RE → RE → RE
  | alt : RE → RE → RE
  | grp : Nat → RE → RE

/-- Backtracking matcher in continuation-passing style.  `reM re s caps k`
tries to match `re` against a prefix of `s`, extending `caps` with the
captures made, and calls the continuation `k` with the remaining input
and captures; the first alternative (in Python's preference order:
left alternative of `alt` first) for which the continuation succeeds is
returned. -/
def reM : RE → List Char → Caps → (List Char → Caps → Option (List Char × Caps)) →
    Option (List Char × Caps)
  | .eps, s, caps, k => k s caps
  | .cls p, s, caps, k =>
      match s with
      | [] => none
      | c :: s' => if p c then k s' caps else none
  | .cat a b, s, caps, k => reM a s caps (fun s' caps' => reM b s' caps' k)
  | .alt a b, s, caps, k => (reM a s caps k).orElse (fun _ => reM b s caps k)
  | .grp i r, s, caps, k =>
      reM r s caps (fun s' caps' => k s' ((i, s.take (s.length - s'.length)) :: caps'))

/-- Bounded repetition `r{min,max}` (`lz = true` for the lazy variant),
desugared into alternations whose order reproduces Python's backtracking
preferences: the greedy variant offers another iteration first, the lazy
variant offers the empty continuation first.  Unbounded `+` and `*` are
instances with `max` set to the subject length. -/
def repRE : Nat → Nat → Bool → RE → RE
  | 0, 0, _, _ => .eps
  | _ + 1, 0, _, _ => .cls (fun _ => false)
  | mn, mx + 1, lz, r =>
    if mn ≠ 0 then .cat r (repRE (mn - 1) mx lz r)
    else if lz then .alt .eps (.cat r (repRE 0 mx lz r))
    else .alt (.cat r (repRE 0 mx lz r)) .eps

/-- One match as reported by the engine: absolute start offset, length of
the matched substring, and the captures. -/
structure MatchInfo where
  mstart : Nat
  mlen : Nat
  mcaps : Caps
deriving DecidableEq, Repr

/-- Attempt a match anchored at the start of `s`; on success report offset
`0`, the matched length and the captures. -/
def searchHere (re : RE) (s : List Char) : Option MatchInfo :=
  match reM re s [] (fun rest caps => some (rest, caps)) with
  | some (rest, caps) => some ⟨0, s.length - rest.length, caps⟩
  | none => none

/-- `re.search` on `s`: try each start position from the left. -/
def searchFrom (re : RE) : List Char → Option MatchInfo
  | [] => searchHere re []
  | c :: s' =>
    match searchHere re (c :: s') with
    | some m => some m
    | none => (searchFrom re s').map (fun m => ⟨m.mstart + 1, m.mlen, m.mcaps⟩)

/-- `re.finditer` on the suffix of the subject starting at absolute offset
`base`: repeatedly search, then continue after the end of each match
(advancing by at least one character, as Python does after an empty
match).  The fuel counts remaining scan steps; `finditer` passes
`length + 1`, which never runs out since every step past a nonempty
subject consumes at least one character. -/
def finditerAux (re : RE) : Nat → List Char → Nat → List MatchInfo
  | 0, _, _ => []
  | _ + 1, [], base =>
    match searchFrom re [] with
    | some m => [⟨base + m.mstart, m.mlen, m.mcaps⟩]
    | none => []
  | fuel + 1, c :: s, base =>
    match searchFrom re (c :: s) with
    | none => []
    | some m =>
        ⟨base + m.mstart, m.mlen, m.mcaps⟩ ::
          finditerAux re fuel ((c :: s).drop (m.mstart + max m.mlen 1))
            (base + m.mstart + max m.mlen 1)

/-- `re.finditer(pattern, text)`: all non-overlapping matches from the
left. -/
def finditer (re : RE) (s : List Char) : List MatchInfo :=
  finditerAux re (s.length + 1) s 0

/-- Declarative matching relation: `RMatch re u` holds when the regex can
match exactly the string `u`. -/
inductive RMatch : RE → List Char → Prop where
  | eps : RMatch .eps []
  | cls {p : Char → Bool} {c : Char} : p c = true → RMatch (.cls p) [c]
  | cat {a b : RE} {u v : List Char} :
      RMatch a u → RMatch b v → RMatch (.cat a b) (u ++ v)
  | altL {a b : RE} {u : List Char} : RMatch a u → RMatch (.alt a b) u
  | altR {a b : RE} {u : List Char} : RMatch b u → RMatch (.alt a b) u
  | grp {i : Nat} {r : RE} {u : List Char} : RMatch r u → RMatch (.grp i r) u

/-- A repetition with no minimum can match the empty string. -/
theorem RMatch_repZero {mx : Nat} {lz : Bool} {r : RE} :
    RMatch (repRE 0 mx lz r) [] := by
  cases mx with
  | zero => exact RMatch.eps
  | succ mx' =>
      simp only [repRE, ne_eq, not_true_eq_false, reduceIte]
      cases lz with
      | true => exact RMatch.altL RMatch.eps
      | false => exact RMatch.altR RMatch.eps

/-- A repetition with room for another iteration can take one. -/
theorem RMatch_repMore {mn mx : Nat} {lz : Bool} {r : RE} {u v : List Char}
    (h1 : RMatch r u) (h2 : RMatch (repRE (mn - 1) mx lz r) v) :
    RMatch (repRE mn (mx + 1) lz r) (u ++ v) := by
  by_cases hmn : mn = 0
  · subst hmn
    simp only [repRE, ne_eq, not_true_eq_false, reduceIte]
    cases lz with
    | true => exact RMatch.altR (RMatch.cat h1 h2)
    | false => exact RMatch.altL (RMatch.cat h1 h2)
  · simp only [repRE, ne_eq, hmn, not_false_eq_true, reduceIte]
    exact RMatch.cat h1 h2

theorem orElse_isSome_left {α : Type} {a : Option α} {f : Unit → Option α}
    (h : a.isSome) : (a.orElse f).isSome := by
  cases a <;> simp_all [Option.orElse]

theorem orElse_isSome_right {α : Type} {a : Option α} {f : Unit → Option α}
    (h : (f ()).isSome) : (a.orElse f).isSome := by
  cases a <;> simp_all [Option.orElse]

/-- Completeness of the backtracking matcher: if the regex can match `u`
and the continuation succeeds on the rest, the matcher succeeds on
`u ++ v`. -/
theorem reM_complete {re : RE} {u : List Char} (h : RMatch re u) :
    ∀ (v : List Char) (caps : Caps)
      (k : List Char → Caps → Option (List Char × Caps)),
      (∀ caps', (k v caps').isSome) → (reM re (u ++ v) caps k).isSome := by
  induction h with
  | eps => intro v caps k hk; simpa [reM] using hk caps
  | cls hp =>
      intro v caps k hk
      simpa [reM, hp] using hk caps
  | cat h1 h2 ih1 ih2 =>
      intro v caps k hk
      rw [List.append_assoc]
      simp only [reM]
      exact ih1 _ _ _ (fun caps' => ih2 _ _ _ hk)
  | altL h ih =>
      intro v caps k hk
      simp only [reM]
      exact orElse_isSome_left (ih v caps k hk)
  | altR h ih =>
      intro v caps k hk
      simp only [reM]
      exact orElse_isSome_right (ih v caps k hk)
  | grp h ih =>
      intro v caps k hk
      simp only [reM]
      exact ih _ _ _ (fun caps' => hk _)

/-- Completeness of the anchored attempt: if the regex can match a prefix
of the subject, `searchHere` succeeds. -/
theorem searchHere_isSome {re : RE} {m : List Char} (h : RMatch re m)
    (post : List Char) : (searchHere re (m ++ post)).isSome := by
  have hM := reM_complete h post [] (fun rest caps => some (rest, caps))
    (fun caps' => rfl)
  unfold searchHere
  cases hE : reM re (m ++ post) [] (fun rest caps => some (rest, caps)) with
  | none => rw [hE] at hM; simp at hM
  | some val => simp

/-- Completeness of `searchFrom`: if the regex can match some infix of the
subject, the search succeeds. -/
theorem searchFrom_isSome {re : RE} {m : List Char} (h : RMatch re m) :
    ∀ pre post : List Char, (searchFrom re (pre ++ (m ++ post))).isSome := by
  intro pre
  induction pre with
  | nil =>
      intro post
      have hH := searchHere_isSome h post
      rw [List.nil_append]
      cases hmp : m ++ post with
      | nil =>
          rw [hmp] at hH
          rw [searchFrom]
          exact hH
      | cons c t =>
          rw [hmp] at hH
          rw [searchFrom]
          cases hS : searchHere re (c :: t) with
          | none => rw [hS] at hH; simp at hH
          | some mm => simp
  | cons c pre ih =>
      intro post
      rw [List.cons_append, searchFrom]
      cases hS : searchHere re (c :: (pre ++ (m ++ post))) with
      | some mm => simp
      | none =>
          have hP := ih post
          cases hQ : searchFrom re (pre ++ (m ++ post)) with
          | none => rw [hQ] at hP; simp at hP
          | some mm => simp

/-! ### Derivation helpers for the matching relation -/

/-- Case-insensitive literal character (all patterns are compiled with
`re.IGNORECASE`): matches any character whose lower-case form is `c`. -/
def rchar (c : Char) : RE := .cls (fun x => x.toLower == c.toLower)

/-- Case-insensitive literal string. -/
def rlit (s : String) : RE := s.toList.foldr (fun c r => .cat (rchar c) r) .eps

/-- `.` — any character except a newline (patterns are compiled without
`re.DOTALL`). -/
def rdot : RE := .cls (fun c => !(c == '\n'))

/-- `\s` (ASCII whitespace). -/
def spaceChar (c : Char) : Bool :=
  c == ' ' || c == '\t' || c == '\n' || c == '\r' || c == '\x0b' || c == '\x0c'

def rsp : RE := .cls spaceChar

/-- `\d` (ASCII digit). -/
def rdigit : RE := .cls (fun c => c.isDigit)

theorem rlit_chars_matches : ∀ l : List Char, (∀ c ∈ l, c.toLower = c) →
    RMatch (l.foldr (fun c r => .cat (rchar c) r) .eps) l := by
  intro l
  induction l with
  | nil => intro _; exact RMatch.eps
  | cons c t ih =>
      intro h
      have hcls : RMatch (rchar c) [c] := by
        rw [rchar]
        exact RMatch.cls (by simp [h c (by simp)])
      have ht := ih (fun d hd => h d (by simp [hd]))
      have hcat := RMatch.cat hcls ht
      simpa using hcat

theorem rlit_matches (s : String) (h : ∀ c ∈ s.toList, c.toLower = c) :
    RMatch (rlit s) s.toList := by
  rw [rlit]
  exact rlit_chars_matches s.toList h

theorem repCls_matches {p : Char → Bool} (lz : Bool) :
    ∀ (u : List Char) (mx : Nat), (∀ c ∈ u, p c = true) → u.length ≤ mx →
      RMatch (repRE 0 mx lz (.cls p)) u := by
  intro u
  induction u with
  | nil => intro mx _ _; exact RMatch_repZero
  | cons c t ih =>
      intro mx h hlen
      cases mx with
      | zero => simp at hlen
      | succ mx' =>
          have h1 : RMatch (.cls p) [c] := RMatch.cls (h c (by simp))
          have h2 := ih mx' (fun d hd => h d (by simp [hd])) (by simpa using hlen)
          have h3 := @RMatch_repMore 0 mx' lz (.cls p) [c] t h1 h2
          simpa using h3

theorem repClsOne_matches {p : Char → Bool} (lz : Bool) {c : Char} {mx : Nat}
    (hc : p c = true) (hmx : 1 ≤ mx) : RMatch (repRE 1 mx lz (.cls p)) [c] := by
  cases mx with
  | zero => omega
  | succ mx' =>
      have h3 := @RMatch_repMore 1 mx' lz (.cls p) [c] []
        (RMatch.cls hc) (@RMatch_repZero mx' lz (.cls p))
      simpa using h3

theorem repOpt_matches {r : RE} (lz : Bool) {u : List Char} (h : RMatch r u) :
    RMatch (repRE 0 1 lz r) u := by
  have h3 := @RMatch_repMore 0 0 lz r u []
    h (@RMatch_repZero 0 lz r)
  simpa using h3

/-! ## Rule-based risk auditor (`AuditService`) -/

/-- One audit finding: the dict built by the `_check_*` helpers of
`AuditService`, with `finding_type`, `description`, `severity`,
`evidence_text` and `recommendation` keys. -/
structure Finding where
  finding_type : List Char
  description : List Char
  severity : List Char
  evidence_text : List Char
  recommendation : List Char
deriving DecidableEq, Repr

/-- Group 1 of a match, with Python's `match.group(1)` defaulting
behaviour collapsed to the empty string (only used where the group always
participates). -/
def g1 (m : MatchInfo) : List Char := (capsGet m.mcaps 1).getD []

/-- `r"(auto(?:matic)?(?:ally)?\s+renew.{0,100}?(\d+)\s+days?)"`,
`re.IGNORECASE`; `\s+` and `\d+` bounded by `L`. -/
def autoRenewalPat1 (L : Nat) : RE :=
  .grp 1 (.cat (rlit "auto")
    (.cat (repRE 0 1 false (rlit "matic"))
      (.cat (repRE 0 1 false (rlit "ally"))
        (.cat (repRE 1 L false rsp)
          (.cat (rlit "renew")
            (.cat (repRE 0 100 true rdot)
              (.cat (.grp 2 (repRE 1 L false rdigit))
                (.cat (repRE 1 L false rsp)
                  (.cat (rlit "day") (repRE 0 1 false (rchar 's')))))))))))

/-- `r"(renew(?:s|al)?\s+automatic.{0,100}?(\d+)\s+days?)"`,
`re.IGNORECASE`; `\s+` and `\d+` bounded by `L`. -/
def autoRenewalPat2 (L : Nat) : RE :=
  .grp 1 (.cat (rlit "renew")
    (.cat (repRE 0 1 false (.alt (rchar 's') (rlit "al")))
      (.cat (repRE 1 L false rsp)
        (.cat (rlit "automatic")
          (.cat (repRE 0 100 true rdot)
            (.cat (.grp 2 (repRE 1 L false rdigit))
              (.cat (repRE 1 L false rsp)
                (.cat (rlit "day") (repRE 0 1 false (rchar 's'))))))))))

/-- `r"liability.{0,200}?(?:limit|cap).{0,100}?(?:\$|USD|EUR)?\s*[\d,]+"`,
`re.IGNORECASE`; `\s*` and `[\d,]+` bounded by `L`. -/
def liabilityCapPat (L : Nat) : RE :=
  .cat (rlit "liability")
    (.cat (repRE 0 200 true rdot)
      (.cat (.alt (rlit "limit") (rlit "cap"))
        (.cat (repRE 0 100 true rdot)
          (.cat (repRE 0 1 false (.alt (rchar '$') (.alt (rlit "USD") (rlit "EUR"))))
            (.cat (repRE 0 L false rsp)
              (repRE 1 L false (.cls (fun c => c.isDigit || c == ','))))))))

/-- `r"(unlimited\s+liability)"`, `re.IGNORECASE`. -/
def unlimitedPat1 (L : Nat) : RE :=
  .grp 1 (.cat (rlit "unlimited") (.cat (repRE 1 L false rsp) (rlit "liability")))

/-- `r"(no\s+limit\s+on\s+liability)"`, `re.IGNORECASE`. -/
def unlimitedPat2 (L : Nat) : RE :=
  .grp 1 (.cat (rlit "no")
    (.cat (repRE 1 L false rsp)
      (.cat (rlit "limit")
        (.cat (repRE 1 L false rsp)
          (.cat (rlit "on") (.cat (repRE 1 L false rsp) (rlit "liability")))))))

/-- `r"(liability.{0,50}?without\s+limit)"`, `re.IGNORECASE`. -/
def unlimitedPat3 (L : Nat) : RE :=
  .grp 1 (.cat (rlit "liability")
    (.cat (repRE 0 50 true rdot)
      (.cat (rlit "without") (.cat (repRE 1 L false rsp) (rlit "limit")))))

/-- `r"liability"`, `re.IGNORECASE`. -/
def liabilityWordPat : RE := rlit "liability"

/-- `r"(indemnif.{0,100}?(?:any|all)\s+(?:claims|losses|damages|liabilities))"`. -/
def indemnityPat1 (L : Nat) : RE :=
  .grp 1 (.cat (rlit "indemnif")
    (.cat (repRE 0 100 true rdot)
      (.cat (.alt (rlit "any") (rlit "all"))
        (.cat (repRE 1 L false rsp)
          (.alt (rlit "claims")
            (.alt (rlit "losses") (.alt (rlit "damages") (rlit "liabilities"))))))))

/-- `r"(indemnif.{0,100}?(?:defend|hold harmless).{0,100}?any)"`. -/
def indemnityPat2 : RE :=
  .grp 1 (.cat (rlit "indemnif")
    (.cat (repRE 0 100 true rdot)
      (.cat (.alt (rlit "defend") (rlit "hold harmless"))
        (.cat (repRE 0 100 true rdot) (rlit "any")))))

/-- `r"(\[Other Party\].{0,100}?may terminate.{0,100}?at any time)"`. -/
def terminationPat1 : RE :=
  .grp 1 (.cat (rlit "[Other Party]")
    (.cat (repRE 0 100 true rdot)
      (.cat (rlit "may terminate")
        (.cat (repRE 0 100 true rdot) (rlit "at any time")))))

/-- `r"(terminate\s+this\s+agreement\s+at\s+any\s+time\s+(?:with|without)\s+cause)"`. -/
def terminationPat2 (L : Nat) : RE :=
  .grp 1 (.cat (rlit "terminate")
    (.cat (repRE 1 L false rsp)
      (.cat (rlit "this")
        (.cat (repRE 1 L false rsp)
          (.cat (rlit "agreement")
            (.cat (repRE 1 L false rsp)
              (.cat (rlit "at")
                (.cat (repRE 1 L false rsp)
                  (.cat (rlit "any")
                    (.cat (repRE 1 L false rsp)
                      (.cat (rlit "time")
                        (.cat (repRE 1 L false rsp)
                          (.cat (.alt (rlit "with") (rlit "without"))
                            (.cat (repRE 1 L false rsp) (rlit "cause")))))))))))))))

/-- `r"(price.{0,100}?(?:increase|escalat).{0,100}?automatic)"`. -/
def pricePat1 : RE :=
  .grp 1 (.cat (rlit "price")
    (.cat (repRE 0 100 true rdot)
      (.cat (.alt (rlit "increase") (rlit "escalat"))
        (.cat (repRE 0 100 true rdot) (rlit "automatic")))))

/-- `r"(automatic.{0,100}?price.{0,100}?increase)"`. -/
def pricePat2 : RE :=
  .grp 1 (.cat (rlit "automatic")
    (.cat (repRE 0 100 true rdot)
      (.cat (rlit "price") (.cat (repRE 0 100 true rdot) (rlit "increase")))))

/-- `r"(?:not\s+(?:to\s+)?exceed|maximum|cap).{0,50}?\d+%"`. -/
def priceCapPat (L : Nat) : RE :=
  .cat (.alt (.cat (rlit "not")
      (.cat (repRE 1 L false rsp)
        (.cat (repRE 0 1 false (.cat (rlit "to") (repRE 1 L false rsp)))
          (rlit "exceed"))))
    (.alt (rlit "maximum") (rlit "cap")))
    (.cat (repRE 0 50 true rdot) (.cat (repRE 1 L false rdigit) (rchar '%')))

/-- Decimal digit string to natural number (`int(match.group(2))`; always
succeeds here since group 2 is `(\d+)`, so the surrounding
`try/except` of the source never fires). -/
def digitsToNat (s : List Char) : Nat :=
  s.foldl (fun a c => a * 10 + (c.toNat - '0'.toNat)) 0

def natToChars (n : Nat) : List Char := (toString n).toList

/-- All `finditer` matches of the two auto-renewal patterns, in source
order. -/
def autoRenewalMatches (text : List Char) : List MatchInfo :=
  finditer (autoRenewalPat1 text.length) text ++
    finditer (autoRenewalPat2 text.length) text

/-- The notice period captured by group 2 of an auto-renewal match. -/
def autoDays (m : MatchInfo) : Nat := digitsToNat ((capsGet m.mcaps 2).getD [])

/-- The finding dict appended by `AuditService._check_auto_renewal` for one
match. -/
def mkAutoRenewalFinding (m : MatchInfo) : Finding :=
  ⟨"auto_renewal_short_notice".toList,
   "Auto-renewal clause with only ".toList ++ natToChars (autoDays m) ++
     " days notice (less than 30 days recommended)".toList,
   if autoDays m < 15 then "high".toList else "medium".toList,
   (g1 m).take 200,
   "Negotiate for at least 30-60 days notice period for auto-renewal".toList⟩

/-- `AuditService._check_auto_renewal`: for each pattern and each of its
matches, append a finding when the captured day count is below 30. -/
def check_auto_renewal (text : List Char) : List Finding :=
  (autoRenewalMatches text).filterMap
    (fun m => if autoDays m < 30 then some (mkAutoRenewalFinding m) else none)

/-- The `critical` finding of `AuditService._check_unlimited_liability`
(explicit unlimited-liability phrasing found). -/
def unlimitedCritFinding (ev : List Char) : Finding :=
  ⟨"unlimited_liability".toList,
   "Contract contains unlimited liability exposure".toList,
   "critical".toList, ev.take 200,
   "Negotiate a liability cap (e.g., fees paid in last 12 months)".toList⟩

/-- The `high` finding of `AuditService._check_unlimited_liability`
(no liability cap found while "liability" occurs). -/
def unlimitedHighFinding : Finding :=
  ⟨"unlimited_liability".toList,
   "No liability cap found in contract".toList,
   "high".toList,
   "No liability limitation clause identified".toList,
   "Add a liability cap to limit exposure".toList⟩

/-- The loop of `_check_unlimited_liability` over the three explicit
unlimited-liability patterns, breaking at the first match. -/
def unlimitedExplicitFindings (text : List Char) : List Finding :=
  match searchFrom (unlimitedPat1 text.length) text with
  | some m => [unlimitedCritFinding (g1 m)]
  | none =>
    match searchFrom (unlimitedPat2 text.length) text with
    | some m => [unlimitedCritFinding (g1 m)]
    | none =>
      match searchFrom (unlimitedPat3 text.length) text with
      | some m => [unlimitedCritFinding (g1 m)]
      | none => []

/-- `AuditService._check_unlimited_liability`: three-tier check — explicit
phrasing, else "no cap mentioned at all while liability occurs". -/
def check_unlimited_liability (text : List Char) : List Finding :=
  let has_cap := (searchFrom (liabilityCapPat text.length) text).isSome
  let findings := unlimitedExplicitFindings text
  if ¬has_cap ∧ findings = [] then
    if (searchFrom liabilityWordPat text).isSome then
      findings ++ [unlimitedHighFinding]
    else findings
  else findings

/-- `AuditService._check_broad_indemnity`: first matching pattern yields a
single `medium` finding. -/
def check_broad_indemnity (text : List Char) : List Finding :=
  match searchFrom (indemnityPat1 text.length) text with
  | some m =>
      [⟨"broad_indemnity".toList,
        "Indemnification clause is overly broad and may expose to excessive liability".toList,
        "medium".toList, (g1 m).take 200,
        "Limit indemnification to claims arising from your acts or omissions, exclude third-party claims".toList⟩]
  | none =>
    match searchFrom indemnityPat2 text with
    | some m =>
        [⟨"broad_indemnity".toList,
          "Indemnification clause is overly broad and may expose to excessive liability".toList,
          "medium".toList, (g1 m).take 200,
          "Limit indemnification to claims arising from your acts or omissions, exclude third-party claims".toList⟩]
    | none => []

/-- `AuditService._check_unilateral_termination`: first matching pattern
yields a single `medium` finding. -/
def check_unilateral_termination (text : List Char) : List Finding :=
  match searchFrom terminationPat1 text with
  | some m =>
      [⟨"unilateral_termination".toList,
        "Contract allows termination without cause, creating uncertainty".toList,
        "medium".toList, (g1 m).take 200,
        "Negotiate for mutual termination rights or require cause for termination".toList⟩]
  | none =>
    match searchFrom (terminationPat2 text.length) text with
    | some m =>
        [⟨"unilateral_termination".toList,
          "Contract allows termination without cause, creating uncertainty".toList,
          "medium".toList, (g1 m).take 200,
          "Negotiate for mutual termination rights or require cause for termination".toList⟩]
    | none => []

/-- The finding built by `AuditService._check_price_increases` once a price
pattern matched, with its inner cap check. -/
def mkPriceFinding (text : List Char) (m : MatchInfo) : Finding :=
  let has_cap := (searchFrom (priceCapPat text.length) text).isSome
  ⟨"automatic_price_increase".toList,
   "Contract allows automatic price increases".toList ++
     (if ¬has_cap then " without clear cap".toList else []),
   if has_cap then "low".toList else "medium".toList,
   (g1 m).take 200,
   "Cap automatic increases (e.g., CPI or 5% annually, whichever is lower)".toList⟩

/-- `AuditService._check_price_increases`: first matching pattern yields a
single finding whose severity depends on a percentage-cap pattern. -/
def check_price_increases (text : List Char) : List Finding :=
  match searchFrom pricePat1 text with
  | some m => [mkPriceFinding text m]
  | none =>
    match searchFrom pricePat2 text with
    | some m => [mkPriceFinding text m]
    | none => []

/-- `AuditService.audit_with_rules`: the five checkers' findings,
concatenated in source order. -/
def audit_with_rules (text : List Char) : List Finding :=
  check_auto_renewal text ++ check_unlimited_liability text ++
    check_broad_indemnity text ++ check_unilateral_termination text ++
    check_price_increases text

/-- The severity weight lookup
`severity_weights.get(f.get("severity", "low"), 10)` of
`AuditService.calculate_risk_score`. -/
def severityWeight (s : List Char) : Nat :=
  if s = "low".toList then 10
  else if s = "medium".toList then 25
  else if s = "high".toList then 50
  else if s = "critical".toList then 100
  else 10

/-- `AuditService.calculate_risk_score`: 0 for no findings, otherwise the
weight sum capped at 100.  The Python function returns a float, but its
value is always integral, so the score is modelled as a natural
number. -/
def calculate_risk_score (findings : List Finding) : Nat :=
  if findings = [] then 0
  else min ((findings.map (fun f => severityWeight f.severity)).sum) 100

/-! ## Rule-based field extractor (`ExtractionService`) -/

/-- Python `str.strip()` (whitespace trimmed from both ends, ASCII). -/
def pyStrip (s : List Char) : List Char :=
  ((s.dropWhile spaceChar).reverse.dropWhile spaceChar).reverse

/-- `[A-Z]` under `re.IGNORECASE` (ASCII letter). -/
def alphaChar (c : Char) : Bool := 'a' ≤ c.toLower && c.toLower ≤ 'z'

/-- `[^,\n]` -/
def notCommaNL (c : Char) : Bool := !(c == ',') && !(c == '\n')

/-- `[^\n]` -/
def notNL (c : Char) : Bool := !(c == '\n')

/-- `[:\s]` -/
def colonSpace (c : Char) : Bool := c == ':' || spaceChar c

/-- `r"between\s+([A-Z][^,\n]+?)\s+(?:and|&)\s+([A-Z][^,\n]+?)(?:\s*\(|,|\.)"`. -/
def partiesPat1 (L : Nat) : RE :=
  .cat (rlit "between")
    (.cat (repRE 1 L false rsp)
      (.cat (.grp 1 (.cat (.cls alphaChar) (repRE 1 L true (.cls notCommaNL))))
        (.cat (repRE 1 L false rsp)
          (.cat (.alt (rlit "and") (rchar '&'))
            (.cat (repRE 1 L false rsp)
              (.cat (.grp 2 (.cat (.cls alphaChar) (repRE 1 L true (.cls notCommaNL))))
                (.alt (.cat (repRE 0 L false rsp) (rchar '('))
                  (.alt (rchar ',') (rchar '.')))))))))

/-- `r"(?:Party|Parties):\s*([^\n]+)"`. -/
def partiesPat2 (L : Nat) : RE :=
  .cat (.alt (rlit "Party") (rlit "Parties"))
    (.cat (rchar ':')
      (.cat (repRE 0 L false rsp) (.grp 1 (repRE 1 L false (.cls notNL)))))

/-- `rf"{date_type}\s+date[:\s]+([A-Za-z]+\s+\d{1,2},?\s+\d{4})"`. -/
def datePat1 (dateType : String) (L : Nat) : RE :=
  .cat (rlit dateType)
    (.cat (repRE 1 L false rsp)
      (.cat (rlit "date")
        (.cat (repRE 1 L false (.cls colonSpace))
          (.grp 1 (.cat (repRE 1 L false (.cls alphaChar))
            (.cat (repRE 1 L false rsp)
              (.cat (repRE 1 2 false rdigit)
                (.cat (repRE 0 1 false (rchar ','))
                  (.cat (repRE 1 L false rsp) (repRE 4 4 false rdigit))))))))))

/-- `\d{1,2}` slash-or-hyphen `\d{1,2}` slash-or-hyphen `\d{2,4}`, all in
group 1 (the second date pattern of the extractor). -/
def datePat2 : RE :=
  .grp 1 (.cat (repRE 1 2 false rdigit)
    (.cat (.cls (fun c => c == '/' || c == '-'))
      (.cat (repRE 1 2 false rdigit)
        (.cat (.cls (fun c => c == '/' || c == '-')) (repRE 2 4 false rdigit)))))

/-- `r"([A-Za-z]+\s+\d{1,2},?\s+\d{4})"`. -/
def datePat3 (L : Nat) : RE :=
  .grp 1 (.cat (repRE 1 L false (.cls alphaChar))
    (.cat (repRE 1 L false rsp)
      (.cat (repRE 1 2 false rdigit)
        (.cat (repRE 0 1 false (rchar ','))
          (.cat (repRE 1 L false rsp) (repRE 4 4 false rdigit))))))

/-- `\d+\s+(?:year|month|day)s?` — the group shared by the three term
patterns. -/
def termBody (L : Nat) : RE :=
  .grp 1 (.cat (repRE 1 L false rdigit)
    (.cat (repRE 1 L false rsp)
      (.cat (.alt (rlit "year") (.alt (rlit "month") (rlit "day")))
        (repRE 0 1 false (rchar 's')))))

/-- `r"term[:\s]+(\d+\s+(?:year|month|day)s?)"`. -/
def termPat1 (L : Nat) : RE :=
  .cat (rlit "term") (.cat (repRE 1 L false (.cls colonSpace)) (termBody L))

/-- `r"period of\s+(\d+\s+(?:year|month|day)s?)"`. -/
def termPat2 (L : Nat) : RE :=
  .cat (rlit "period of") (.cat (repRE 1 L false rsp) (termBody L))

/-- `r"duration[:\s]+(\d+\s+(?:year|month|day)s?)"`. -/
def termPat3 (L : Nat) : RE :=
  .cat (rlit "duration") (.cat (repRE 1 L false (.cls colonSpace)) (termBody L))

/-- `r"governing\s+law[:\s]+([^\n\.]+)"`. -/
def lawPat (L : Nat) : RE :=
  .cat (rlit "governing")
    (.cat (repRE 1 L false rsp)
      (.cat (rlit "law")
        (.cat (repRE 1 L false (.cls colonSpace))
          (.grp 1 (repRE 1 L false (.cls (fun c => !(c == '\n') && !(c == '.'))))))))

/-- `[^\n]+(?:\n[^\n]+){0,k}` — the multi-line tail shared by several
extraction patterns. -/
def multiLineBody (L k : Nat) : RE :=
  .grp 1 (.cat (repRE 1 L false (.cls notNL))
    (repRE 0 k false (.cat (rchar '\n') (repRE 1 L false (.cls notNL)))))

/-- `r"payment\s+terms?[:\s]+([^\n]+(?:\n[^\n]+){0,2})"`. -/
def paymentPat (L : Nat) : RE :=
  .cat (rlit "payment")
    (.cat (repRE 1 L false rsp)
      (.cat (rlit "term")
        (.cat (repRE 0 1 false (rchar 's'))
          (.cat (repRE 1 L false (.cls colonSpace)) (multiLineBody L 2)))))

/-- `r"termination[:\s]+([^\n]+(?:\n[^\n]+){0,3})"`. -/
def terminationExtractPat (L : Nat) : RE :=
  .cat (rlit "termination")
    (.cat (repRE 1 L false (.cls colonSpace)) (multiLineBody L 3))

/-- `r"(?:auto-?renew|automatic renewal)[:\s]+([^\n]+(?:\n[^\n]+){0,2})"`. -/
def autoRenewalExtractPat (L : Nat) : RE :=
  .cat (.alt (.cat (rlit "auto") (.cat (repRE 0 1 false (rchar '-')) (rlit "renew")))
      (rlit "automatic renewal"))
    (.cat (repRE 1 L false (.cls colonSpace)) (multiLineBody L 2))

/-- `r"confidentialit(?:y|ies)[:\s]+([^\n]+(?:\n[^\n]+){0,3})"`. -/
def confidentialityPat (L : Nat) : RE :=
  .cat (rlit "confidentialit")
    (.cat (.alt (rchar 'y') (rlit "ies"))
      (.cat (repRE 1 L false (.cls colonSpace)) (multiLineBody L 3)))

/-- `r"indemni(?:ty|fication)[:\s]+([^\n]+(?:\n[^\n]+){0,3})"`. -/
def indemnityExtractPat (L : Nat) : RE :=
  .cat (rlit "indemni")
    (.cat (.alt (rlit "ty") (rlit "fication"))
      (.cat (repRE 1 L false (.cls colonSpace)) (multiLineBody L 3)))

/-- `r"liability.*?(?:limit|cap).*?(\$|USD|EUR|GBP)?\s*([\d,]+(?:\.\d{2})?)"`,
the combined liability-cap pattern of
`ExtractionService._extract_liability_cap_rule`. -/
def extLiabilityPat (L : Nat) : RE :=
  .cat (rlit "liability")
    (.cat (repRE 0 L true rdot)
      (.cat (.alt (rlit "limit") (rlit "cap"))
        (.cat (repRE 0 L true rdot)
          (.cat (repRE 0 1 false
              (.grp 1 (.alt (rchar '$') (.alt (rlit "USD") (.alt (rlit "EUR") (rlit "GBP"))))))
            (.cat (repRE 0 L false rsp)
              (.grp 2 (.cat (repRE 1 L false (.cls (fun c => c.isDigit || c == ',')))
                (repRE 0 1 false (.cat (rchar '.') (.cat rdigit rdigit))))))))))

/-- All fields extracted by `ExtractionService.extract_with_rules`
(`None` becomes `none`; `parties` and `signatories` are always lists). -/
structure ExtractedFields where
  parties : List (List Char)
  effective_date : Option (List Char)
  term : Option (List Char)
  governing_law : Option (List Char)
  payment_terms : Option (List Char)
  termination : Option (List Char)
  auto_renewal : Option (List Char)
  confidentiality : Option (List Char)
  indemnity : Option (List Char)
  liability_cap_amount : Option Rat
  liability_cap_currency : Option (List Char)
  signatories : List (List Char × List Char)
deriving DecidableEq, Repr

/-- `ExtractionService._extract_parties_rule`: `re.findall` over the two
party patterns, the raw names stripped, the list truncated to 10 and
de-duplicated.  Python de-duplicates with `list(set(...))`, whose order
is unspecified; the model keeps the first occurrence of each name.  No
claim depends on the order. -/
def extract_parties_rule (text : List Char) : List (List Char) :=
  let fromBetween := (finditer (partiesPat1 text.length) text).flatMap
    (fun m => [pyStrip ((capsGet m.mcaps 1).getD []),
               pyStrip ((capsGet m.mcaps 2).getD [])])
  let fromParty := (finditer (partiesPat2 text.length) text).flatMap
    (fun m => (((capsGet m.mcaps 1).getD []).splitOn ',').map pyStrip)
  ((fromBetween ++ fromParty).take 10).eraseDups

/-- `ExtractionService._extract_date_rule`: three patterns tried in order,
first match wins, `group(1).strip()`. -/
def extract_date_rule (text : List Char) (dateType : String) : Option (List Char) :=
  match searchFrom (datePat1 dateType text.length) text with
  | some m => some (pyStrip (g1 m))
  | none =>
    match searchFrom datePat2 text with
    | some m => some (pyStrip (g1 m))
    | none =>
      match searchFrom (datePat3 text.length) text with
      | some m => some (pyStrip (g1 m))
      | none => none

/-- `ExtractionService._extract_term_rule`. -/
def extract_term_rule (text : List Char) : Option (List Char) :=
  match searchFrom (termPat1 text.length) text with
  | some m => some (pyStrip (g1 m))
  | none =>
    match searchFrom (termPat2 text.length) text with
    | some m => some (pyStrip (g1 m))
    | none =>
      match searchFrom (termPat3 text.length) text with
      | some m => some (pyStrip (g1 m))
      | none => none

/-- `ExtractionService._extract_governing_law_rule`. -/
def extract_governing_law_rule (text : List Char) : Option (List Char) :=
  (searchFrom (lawPat text.length) text).map (fun m => pyStrip (g1 m))

/-- `ExtractionService._extract_payment_terms_rule`. -/
def extract_payment_terms_rule (text : List Char) : Option (List Char) :=
  (searchFrom (paymentPat text.length) text).map (fun m => pyStrip (g1 m))

/-- `ExtractionService._extract_termination_rule`. -/
def extract_termination_rule (text : List Char) : Option (List Char) :=
  (searchFrom (terminationExtractPat text.length) text).map (fun m => pyStrip (g1 m))

/-- `ExtractionService._extract_auto_renewal_rule`. -/
def extract_auto_renewal_rule (text : List Char) : Option (List Char) :=
  (searchFrom (autoRenewalExtractPat text.length) text).map (fun m => pyStrip (g1 m))

/-- `ExtractionService._extract_confidentiality_rule`. -/
def extract_confidentiality_rule (text : List Char) : Option (List Char) :=
  (searchFrom (confidentialityPat text.length) text).map (fun m => pyStrip (g1 m))

/-- `ExtractionService._extract_indemnity_rule`. -/
def extract_indemnity_rule (text : List Char) : Option (List Char) :=
  (searchFrom (indemnityExtractPat text.length) text).map (fun m => pyStrip (g1 m))

/-- `float(amount_str)` on the comma-stripped strings the liability-cap
pattern can produce (decimal digits with an optional two-digit fraction):
`none` on the empty string, which is the only shape `float` rejects here.
The value is modelled exactly as a rational; the Python float is the
nearest binary approximation, and no claim depends on the value. -/
def parseDecimal (s : List Char) : Option Rat :=
  if s = [] then none
  else
    let intPart := s.takeWhile (fun c => !(c == '.'))
    let rest := s.dropWhile (fun c => !(c == '.'))
    match rest with
    | [] => some ((digitsToNat intPart : Rat))
    | _ :: frac =>
        some ((digitsToNat intPart : Rat) + (digitsToNat frac : Rat) / ((10 : Rat) ^ frac.length))

/-- Python's `x or default` for an optional string (falsy on `None` and on
the empty string). -/
def pyOrStr (o : Option (List Char)) (dflt : List Char) : List Char :=
  match o with
  | some s => if s = [] then dflt else s
  | none => dflt

/-- `ExtractionService._extract_liability_cap_rule`: search the combined
pattern; currency is group 1 `or "USD"`; the amount string has commas
removed and is parsed as a number, `None` on parse failure. -/
def extract_liability_cap_rule (text : List Char) : Option (Rat × List Char) :=
  match searchFrom (extLiabilityPat text.length) text with
  | some m =>
      let currency := pyOrStr (capsGet m.mcaps 1) "USD".toList
      let amount_str := ((capsGet m.mcaps 2).getD []).filter (fun c => !(c == ','))
      match parseDecimal amount_str with
      | some amount => some (amount, currency)
      | none => none
  | none => none

/-- `ExtractionService.extract_with_rules`: build the result dict from the
individual rule extractors; the liability fields stay unset unless the
liability-cap rule returns a value. -/
def extract_with_rules (text : List Char) : ExtractedFields :=
  let base : ExtractedFields :=
    ⟨extract_parties_rule text,
     extract_date_rule text "effective",
     extract_term_rule text,
     extract_governing_law_rule text,
     extract_payment_terms_rule text,
     extract_termination_rule text,
     extract_auto_renewal_rule text,
     extract_confidentiality_rule text,
     extract_indemnity_rule text,
     none, none, []⟩
  match extract_liability_cap_rule text with
  | some (amount, currency) =>
      { base with
        liability_cap_amount := some amount
        liability_cap_currency := some currency }
  | none => base

/-! ## RAG answer flow (`RAGService.answer_question`) -/

/-- One chunk as returned by the vector-store query, with the metadata keys
used by the answer flow (`metadata.get(...)` may be absent). -/
structure RetChunk where
  text : List Char
  document_id : Option (List Char)
  start_char : Option Nat
  end_char : Option Nat
  chunk_index : Option Nat
deriving DecidableEq, Repr

/-- One citation dict built by `RAGService.answer_question`. -/
structure Citation where
  document_id : Option (List Char)
  text : List Char
  char_start : Option Nat
  char_end : Option Nat
  chunk_index : Option Nat
deriving DecidableEq, Repr

/-- The fixed refusal answer returned on empty retrieval. -/
def refusalAnswer : List Char :=
  "I cannot answer this based on the available contract documents.".toList

/-- Context assembly: chunks labelled `[Document <id>, Chunk <n>]`,
enumerated from 1, joined by blank lines. -/
def buildContext (chunks : List RetChunk) : List Char :=
  List.intercalate "\n\n".toList
    (chunks.enum.map (fun p =>
      "[Document ".toList ++ (p.2.document_id.getD "unknown".toList) ++
        ", Chunk ".toList ++ natToChars (p.1 + 1) ++ "]\n".toList ++ p.2.text))

/-- The prompt sent to the chat-completion service. -/
def buildPrompt (question : List Char) (chunks : List RetChunk) : List Char :=
  "You are a legal contract analyst. Answer questions about contracts based ONLY on the provided context.\n\nContext from contracts:\n".toList ++
    buildContext chunks ++
    "\n\nQuestion: ".toList ++ question ++
    "\n\nInstructions:\n1. Answer based ONLY on the provided context\n2. If the answer is not in the context, say \"I cannot answer this based on the available contract documents.\"\n3. Be precise and cite specific clauses when possible\n4. If multiple contracts are referenced, specify which contract contains the information\n\nProvide a clear, concise answer:".toList

/-- The citation built for one retrieved chunk (text truncated to 200
characters with an ellipsis when longer). -/
def mkCitation (c : RetChunk) : Citation :=
  ⟨c.document_id,
   if 200 < c.text.length then c.text.take 200 ++ "...".toList else c.text,
   c.start_char, c.end_char, c.chunk_index⟩

/-- `RAGService.answer_question`, with the retrieval result passed in as
`relevant_chunks` (the vector-store query is external) and the
chat-completion call abstracted as `gen` (which may fail).  The `Bool`
in the result records whether the chat-completion service was invoked;
errors are the `ValueError`s raised by the source. -/
def answer_question (clientConfigured : Bool) (question : List Char)
    (relevant_chunks : List RetChunk)
    (gen : List Char → Except (List Char) (List Char)) :
    Except (List Char) ((List Char × List Citation) × Bool) :=
  if ¬clientConfigured then
    .error "OpenAI API key not configured for RAG".toList
  else if relevant_chunks = [] then
    .ok ((refusalAnswer, []), false)
  else
    match gen (buildPrompt question relevant_chunks) with
    | .error e => .error ("Error generating answer: ".toList ++ e)
    | .ok answer => .ok ((answer, relevant_chunks.map mkCitation), true)

/-! ## Claim theorems -/

/-- The severity→weight table as the spec states it (defined on the four
documented severities). -/
def specSeverityWeight (s : List Char) : Nat :=
  if s = "low".toList then 10
  else if s = "medium".toList then 25
  else if s = "high".toList then 50
  else 100

/-- C2: for findings whose severities are drawn from
low/medium/high/critical, `AuditService.calculate_risk_score` returns
`min(100, sum of weights)` with weights 10/25/50/100; the empty list
yields 0; the score never exceeds 100; a single critical finding yields
exactly 100 and two medium findings yield exactly 50. -/
theorem calculate_risk_score_spec (findings : List Finding)
    (h : ∀ f ∈ findings, f.severity = "low".toList ∨ f.severity = "medium".toList ∨
        f.severity = "high".toList ∨ f.severity = "critical".toList) :
    calculate_risk_score findings
        = min 100 ((findings.map (fun f => specSeverityWeight f.severity)).sum) ∧
    (findings = [] → calculate_risk_score findings = 0) ∧
    calculate_risk_score findings ≤ 100 ∧
    (∀ f : Finding, f.severity = "critical".toList → calculate_risk_score [f] = 100) ∧
    (∀ f₁ f₂ : Finding, f₁.severity = "medium".toList → f₂.severity = "medium".toList →
        calculate_risk_score [f₁, f₂] = 50) := by
  have hmap : findings.map (fun f => severityWeight f.severity)
      = findings.map (fun f => specSeverityWeight f.severity) := by
    apply List.map_congr_left
    intro f hf
    rcases h f hf with h' | h' | h' | h' <;> rw [h'] <;> decide
  have hcrit : severityWeight "critical".toList = 100 := by decide
  have hmed : severityWeight "medium".toList = 25 := by decide
  refine ⟨?_, ?_, ?_, ?_, ?_⟩
  · by_cases he : findings = []
    · subst he
      simp [calculate_risk_score]
    · rw [calculate_risk_score, if_neg he, hmap, Nat.min_comm]
  · intro he
    simp [calculate_risk_score, he]
  · rw [calculate_risk_score]
    split
    · omega
    · omega
  · intro f hf
    rw [calculate_risk_score, if_neg (by simp)]
    simp only [List.map_cons, List.map_nil, List.sum_cons, List.sum_nil, hf, hcrit]
    omega
  · intro f₁ f₂ h1 h2
    rw [calculate_risk_score, if_neg (by simp)]
    simp only [List.map_cons, List.map_nil, List.sum_cons, List.sum_nil, h1, h2, hmed]
    omega

/-- A concrete critical finding, used by the risk-score witness. -/
def sampleCriticalFinding : Finding :=
  ⟨"unlimited_liability".toList, [], "critical".toList, [], []⟩

/-- Concrete witness for C2: a single critical finding scores exactly
100. -/
theorem calculate_risk_score_spec_witness :
    calculate_risk_score [sampleCriticalFinding] = 100 :=
  (calculate_risk_score_spec [sampleCriticalFinding]
    (by intro f hf; simp at hf; subst hf; exact Or.inr (Or.inr (Or.inr rfl)))
    ).2.2.2.1 sampleCriticalFinding rfl

/-- Every auto-renewal finding has type `auto_renewal_short_notice`. -/
theorem check_auto_renewal_types (text : List Char) :
    ∀ f ∈ check_auto_renewal text,
      f.finding_type = "auto_renewal_short_notice".toList := by
  intro f hf
  rw [check_auto_renewal] at hf
  obtain ⟨m, hm, hmk⟩ := List.mem_filterMap.mp hf
  by_cases hd : autoDays m < 30
  · rw [if_pos hd] at hmk
    injection hmk with h'
    rw [← h']
    rfl
  · rw [if_neg hd] at hmk
    simp at hmk

/-- Every finding of the explicit-phrasing loop has type
`unlimited_liability` and severity `critical`. -/
theorem unlimitedExplicitFindings_shape (text : List Char) :
    ∀ f ∈ unlimitedExplicitFindings text,
      f.finding_type = "unlimited_liability".toList ∧
      f.severity = "critical".toList := by
  intro f hf
  rw [unlimitedExplicitFindings] at hf
  cases h1 : searchFrom (unlimitedPat1 text.length) text with
  | some m =>
      simp only [h1] at hf
      simp at hf
      subst hf
      exact ⟨rfl, rfl⟩
  | none =>
      simp only [h1] at hf
      cases h2 : searchFrom (unlimitedPat2 text.length) text with
      | some m =>
          simp only [h2] at hf
          simp at hf
          subst hf
          exact ⟨rfl, rfl⟩
      | none =>
          simp only [h2] at hf
          cases h3 : searchFrom (unlimitedPat3 text.length) text with
          | some m =>
              simp only [h3] at hf
              simp at hf
              subst hf
              exact ⟨rfl, rfl⟩
          | none =>
              simp only [h3] at hf
              simp at hf

/-- Every unlimited-liability-checker finding has type
`unlimited_liability`. -/
theorem check_unlimited_liability_types (text : List Char) :
    ∀ f ∈ check_unlimited_liability text,
      f.finding_type = "unlimited_liability".toList := by
  intro f hf
  rw [check_unlimited_liability] at hf
  split at hf
  · split at hf
    · rcases List.mem_append.mp hf with h | h
      · exact (unlimitedExplicitFindings_shape text f h).1
      · simp at h
        subst h
        rfl
    · exact (unlimitedExplicitFindings_shape text f hf).1
  · exact (unlimitedExplicitFindings_shape text f hf).1

/-- Every broad-indemnity finding has type `broad_indemnity`. -/
theorem check_broad_indemnity_types (text : List Char) :
    ∀ f ∈ check_broad_indemnity text,
      f.finding_type = "broad_indemnity".toList := by
  intro f hf
  rw [check_broad_indemnity] at hf
  cases h1 : searchFrom (indemnityPat1 text.length) text with
  | some m =>
      simp only [h1] at hf
      simp at hf
      subst hf
      rfl
  | none =>
      simp only [h1] at hf
      cases h2 : searchFrom indemnityPat2 text with
      | some m =>
          simp only [h2] at hf
          simp at hf
          subst hf
          rfl
      | none =>
          simp only [h2] at hf
          simp at hf

/-- Every unilateral-termination finding has type
`unilateral_termination`. -/
theorem check_unilateral_termination_types (text : List Char) :
    ∀ f ∈ check_unilateral_termination text,
      f.finding_type = "unilateral_termination".toList := by
  intro f hf
  rw [check_unilateral_termination] at hf
  cases h1 : searchFrom terminationPat1 text with
  | some m =>
      simp only [h1] at hf
      simp at hf
      subst hf
      rfl
  | none =>
      simp only [h1] at hf
      cases h2 : searchFrom (terminationPat2 text.length) text with
      | some m =>
          simp only [h2] at hf
          simp at hf
          subst hf
          rfl
      | none =>
          simp only [h2] at hf
          simp at hf

/-- Every price-increase finding has type `automatic_price_increase`. -/
theorem check_price_increases_types (text : List Char) :
    ∀ f ∈ check_price_increases text,
      f.finding_type = "automatic_price_increase".toList := by
  intro f hf
  rw [check_price_increases] at hf
  cases h1 : searchFrom pricePat1 text with
  | some m =>
      simp only [h1] at hf
      simp at hf
      subst hf
      rfl
  | none =>
      simp only [h1] at hf
      cases h2 : searchFrom pricePat2 text with
      | some m =>
          simp only [h2] at hf
          simp at hf
          subst hf
          rfl
      | none =>
          simp only [h2] at hf
          simp at hf

/-- Within `audit_with_rules`, the findings of type `unlimited_liability`
are exactly those of the unlimited-liability checker: no other checker
produces that type. -/
theorem audit_filter_unlimited (text : List Char) :
    (audit_with_rules text).filter
        (fun f => f.finding_type == "unlimited_liability".toList)
      = check_unlimited_liability text := by
  rw [audit_with_rules, List.filter_append, List.filter_append,
    List.filter_append, List.filter_append]
  have e1 : (check_auto_renewal text).filter
      (fun f => f.finding_type == "unlimited_liability".toList) = [] := by
    rw [List.filter_eq_nil_iff]
    intro f hf
    rw [check_auto_renewal_types text f hf]
    decide
  have e2 : (check_unlimited_liability text).filter
      (fun f => f.finding_type == "unlimited_liability".toList)
      = check_unlimited_liability text := by
    rw [List.filter_eq_self]
    intro f hf
    rw [check_unlimited_liability_types text f hf]
    decide
  have e3 : (check_broad_indemnity text).filter
      (fun f => f.finding_type == "unlimited_liability".toList) = [] := by
    rw [List.filter_eq_nil_iff]
    intro f hf
    rw [check_broad_indemnity_types text f hf]
    decide
  have e4 : (check_unilateral_termination text).filter
      (fun f => f.finding_type == "unlimited_liability".toList) = [] := by
    rw [List.filter_eq_nil_iff]
    intro f hf
    rw [check_unilateral_termination_types text f hf]
    decide
  have e5 : (check_price_increases text).filter
      (fun f => f.finding_type == "unlimited_liability".toList) = [] := by
    rw [List.filter_eq_nil_iff]
    intro f hf
    rw [check_price_increases_types text f hf]
    decide
  rw [e1, e2, e3, e4, e5]
  simp

/-- C4: the unlimited-liability detector performs a three-tier check.
(a) If any explicit unlimited-liability pattern matches, exactly one
finding is produced, of type `unlimited_liability` and severity
`critical`.  Otherwise (b) if the liability-cap-shaped pattern matches
nowhere while the word "liability" occurs, exactly one finding of type
`unlimited_liability` and severity `high` is produced; otherwise no
finding.  At most one tier fires, (a) before (b), and within
`audit_with_rules` the findings of type `unlimited_liability` are
exactly the detector's. -/
theorem unlimited_liability_three_tier (text : List Char) :
    (((searchFrom (unlimitedPat1 text.length) text).isSome ∨
      (searchFrom (unlimitedPat2 text.length) text).isSome ∨
      (searchFrom (unlimitedPat3 text.length) text).isSome) →
      ∃ ev, check_unlimited_liability text = [unlimitedCritFinding ev] ∧
        (unlimitedCritFinding ev).finding_type = "unlimited_liability".toList ∧
        (unlimitedCritFinding ev).severity = "critical".toList) ∧
    (searchFrom (unlimitedPat1 text.length) text = none →
     searchFrom (unlimitedPat2 text.length) text = none →
     searchFrom (unlimitedPat3 text.length) text = none →
      (searchFrom (liabilityCapPat text.length) text = none →
        (searchFrom liabilityWordPat text).isSome →
        check_unlimited_liability text = [unlimitedHighFinding] ∧
          unlimitedHighFinding.finding_type = "unlimited_liability".toList ∧
          unlimitedHighFinding.severity = "high".toList) ∧
      (((searchFrom (liabilityCapPat text.length) text).isSome ∨
          searchFrom liabilityWordPat text = none) →
        check_unlimited_liability text = [])) ∧
    (audit_with_rules text).filter
        (fun f => f.finding_type == "unlimited_liability".toList)
      = check_unlimited_liability text := by
  refine ⟨?_, ?_, audit_filter_unlimited text⟩
  · intro hdisj
    have hexpl : ∃ ev, unlimitedExplicitFindings text = [unlimitedCritFinding ev] := by
      cases h1 : searchFrom (unlimitedPat1 text.length) text with
      | some m => exact ⟨g1 m, by rw [unlimitedExplicitFindings]; simp only [h1]⟩
      | none =>
          cases h2 : searchFrom (unlimitedPat2 text.length) text with
          | some m =>
              exact ⟨g1 m, by rw [unlimitedExplicitFindings]; simp only [h1, h2]⟩
          | none =>
              cases h3 : searchFrom (unlimitedPat3 text.length) text with
              | some m =>
                  exact ⟨g1 m, by rw [unlimitedExplicitFindings]; simp only [h1, h2, h3]⟩
              | none =>
                  rw [h1, h2, h3] at hdisj
                  simp at hdisj
    obtain ⟨ev, hev⟩ := hexpl
    refine ⟨ev, ?_, rfl, rfl⟩
    rw [check_unlimited_liability]
    simp [hev]
  · intro h1 h2 h3
    have hexpl : unlimitedExplicitFindings text = [] := by
      rw [unlimitedExplicitFindings]
      simp only [h1, h2, h3]
    constructor
    · intro hcap hliab
      refine ⟨?_, rfl, rfl⟩
      rw [check_unlimited_liability]
      simp [hexpl, hcap, hliab]
    · intro hor
      rcases hor with hcap | hliab
      · obtain ⟨m, hm⟩ := Option.isSome_iff_exists.mp hcap
        rw [check_unlimited_liability]
        simp [hexpl, hm]
      · by_cases hc : (searchFrom (liabilityCapPat text.length) text).isSome
        · obtain ⟨m, hm⟩ := Option.isSome_iff_exists.mp hc
          rw [check_unlimited_liability]
          simp [hexpl, hm]
        · rw [check_unlimited_liability]
          simp [hexpl, hliab, hc]

/-- Concrete witness for C4: tier (a) on the text "unlimited liability"
and tier (b) on the text "liability". -/
theorem unlimited_liability_three_tier_witness :
    (∃ ev, check_unlimited_liability "unlimited liability".toList
        = [unlimitedCritFinding ev] ∧
      (unlimitedCritFinding ev).finding_type = "unlimited_liability".toList ∧
      (unlimitedCritFinding ev).severity = "critical".toList) ∧
    (check_unlimited_liability "liability".toList = [unlimitedHighFinding] ∧
      unlimitedHighFinding.finding_type = "unlimited_liability".toList ∧
      unlimitedHighFinding.severity = "high".toList) :=
  ⟨(unlimited_liability_three_tier "unlimited liability".toList).1
      (Or.inl (by decide)),
   ((unlimited_liability_three_tier "liability".toList).2.1
      (by decide) (by decide) (by decide)).1 (by decide) (by decide)⟩

/-- The text of the spec's "liability cap present" scenario. -/
def capAbsentPhrase : List Char := "liability shall not exceed $50,000".toList

/-- C3 counterexample: the text "liability shall not exceed $50,000"
contains the scenario's phrase verbatim and matches none of the explicit
unlimited-liability patterns, yet `audit_with_rules` produces one
`unlimited_liability` finding — the cap-shaped pattern requires the
literal word "limit" or "cap", which this phrasing lacks, so tier (b)
fires. -/
theorem liability_cap_scenario_counterexample :
    ("liability shall not exceed $50,000".toList <:+: capAbsentPhrase) ∧
    searchFrom (unlimitedPat1 capAbsentPhrase.length) capAbsentPhrase = none ∧
    searchFrom (unlimitedPat2 capAbsentPhrase.length) capAbsentPhrase = none ∧
    searchFrom (unlimitedPat3 capAbsentPhrase.length) capAbsentPhrase = none ∧
    (audit_with_rules capAbsentPhrase).filter
        (fun f => f.finding_type == "unlimited_liability".toList)
      = [unlimitedHighFinding] :=
  ⟨⟨[], [], by simp [capAbsentPhrase]⟩, by decide, by decide, by decide, by decide⟩

/-- C3 (amended): for every text that contains the cap-shaped phrase
"liability is limited to $50,000" and matches none of the explicit
unlimited-liability patterns, `audit_with_rules` produces zero findings
of type `unlimited_liability` (the cap pattern matches inside the
phrase, so tier (b) cannot fire). -/
theorem liability_cap_present_amended (text : List Char)
    (hin : "liability is limited to $50,000".toList <:+: text)
    (h1 : searchFrom (unlimitedPat1 text.length) text = none)
    (h2 : searchFrom (unlimitedPat2 text.length) text = none)
    (h3 : searchFrom (unlimitedPat3 text.length) text = none) :
    (audit_with_rules text).filter
        (fun f => f.finding_type == "unlimited_liability".toList) = [] := by
  obtain ⟨pre, post, hsplit⟩ := hin
  have hL : 1 ≤ text.length := by
    rw [← hsplit]
    simp [List.length_append]
    omega
  have d1 : RMatch (rlit "liability") "liability".toList :=
    rlit_matches "liability" (by decide)
  have d2 : RMatch (repRE 0 200 true rdot) " is ".toList := by
    rw [rdot]
    exact repCls_matches true " is ".toList 200 (by decide) (by decide)
  have d3 : RMatch (.alt (rlit "limit") (rlit "cap")) "limit".toList :=
    RMatch.altL (rlit_matches "limit" (by decide))
  have d4 : RMatch (repRE 0 100 true rdot) "ed to ".toList := by
    rw [rdot]
    exact repCls_matches true "ed to ".toList 100 (by decide) (by decide)
  have d5 : RMatch (repRE 0 1 false
      (.alt (rchar '$') (.alt (rlit "USD") (rlit "EUR")))) "$".toList := by
    apply repOpt_matches
    apply RMatch.altL
    rw [rchar]
    exact RMatch.cls (by decide)
  have d6 : RMatch (repRE 0 text.length false rsp) ([] : List Char) :=
    RMatch_repZero
  have d7 : RMatch (repRE 1 text.length false
      (.cls (fun c => c.isDigit || c == ','))) "5".toList :=
    repClsOne_matches false (by decide) hL
  have hm : RMatch (liabilityCapPat text.length)
      ("liability".toList ++ (" is ".toList ++ ("limit".toList ++
        ("ed to ".toList ++ ("$".toList ++ ([] ++ "5".toList)))))) :=
    RMatch.cat d1 (RMatch.cat d2 (RMatch.cat d3 (RMatch.cat d4
      (RMatch.cat d5 (RMatch.cat d6 d7)))))
  have hms : ("liability".toList ++ (" is ".toList ++ ("limit".toList ++
      ("ed to ".toList ++ ("$".toList ++ ([] ++ "5".toList))))))
      = "liability is limited to $5".toList := by decide
  rw [hms] at hm
  have htext : text = pre ++ ("liability is limited to $5".toList ++
      ("0,000".toList ++ post)) := by
    rw [← hsplit]
    have hphrase : "liability is limited to $50,000".toList
        = "liability is limited to $5".toList ++ "0,000".toList := by decide
    rw [hphrase]
    simp [List.append_assoc]
  have hsome := searchFrom_isSome hm pre ("0,000".toList ++ post)
  rw [← htext] at hsome
  have hexpl : unlimitedExplicitFindings text = [] := by
    rw [unlimitedExplicitFindings]
    simp only [h1, h2, h3]
  obtain ⟨mm, hmm⟩ := Option.isSome_iff_exists.mp hsome
  rw [audit_filter_unlimited, check_unlimited_liability]
  simp [hexpl, hmm]

/-- Concrete witness for the amended C3 at the phrase itself. -/
theorem liability_cap_present_amended_witness :
    (audit_with_rules "liability is limited to $50,000".toList).filter
        (fun f => f.finding_type == "unlimited_liability".toList) = [] :=
  liability_cap_present_amended "liability is limited to $50,000".toList
    ⟨[], [], by simp⟩ (by decide) (by decide) (by decide)

/-- C5: the auto-renewal detector produces a finding for a match exactly
when the captured notice period is below 30 days, with severity `high`
below 15 days and `medium` otherwise; in particular a notice period of
exactly 30 days produces no finding, 29 days a `medium` finding and 14
days a `high` finding. -/
theorem auto_renewal_threshold (text : List Char) :
    (∀ f, f ∈ check_auto_renewal text ↔
      ∃ m, m ∈ autoRenewalMatches text ∧ autoDays m < 30 ∧
        f = mkAutoRenewalFinding m) ∧
    (∀ m : MatchInfo, (mkAutoRenewalFinding m).finding_type
        = "auto_renewal_short_notice".toList ∧
      (mkAutoRenewalFinding m).severity
        = if autoDays m < 15 then "high".toList else "medium".toList) ∧
    check_auto_renewal "automatically renew notice 30 days".toList = [] ∧
    (check_auto_renewal "automatically renew notice 29 days".toList).map
        (fun f => (f.finding_type, f.severity))
      = [("auto_renewal_short_notice".toList, "medium".toList)] ∧
    (check_auto_renewal "automatically renew notice 14 days".toList).map
        (fun f => (f.finding_type, f.severity))
      = [("auto_renewal_short_notice".toList, "high".toList)] := by
  refine ⟨?_, fun m => ⟨rfl, rfl⟩, by decide, by decide, by decide⟩
  intro f
  rw [check_auto_renewal, List.mem_filterMap]
  constructor
  · rintro ⟨m, hm, hmk⟩
    by_cases hd : autoDays m < 30
    · rw [if_pos hd] at hmk
      injection hmk with h'
      exact ⟨m, hm, hd, h'.symm⟩
    · rw [if_neg hd] at hmk
      simp at hmk
  · rintro ⟨m, hm, hd, rfl⟩
    exact ⟨m, hm, by rw [if_pos hd]⟩

/-- Concrete witness for C5: the boundary instances projected from the
theorem at the three boundary texts. -/
theorem auto_renewal_threshold_witness :
    check_auto_renewal "automatically renew notice 30 days".toList = [] ∧
    (check_auto_renewal "automatically renew notice 29 days".toList).map
        (fun f => (f.finding_type, f.severity))
      = [("auto_renewal_short_notice".toList, "medium".toList)] :=
  ⟨(auto_renewal_threshold "automatically renew notice 30 days".toList).2.2.1,
   (auto_renewal_threshold "automatically renew notice 29 days".toList).2.2.2.1⟩

/-- C6: the rule-based extractor and auditor degrade gracefully.  The
empty text yields the all-absent extraction record (with `parties` and
`signatories` empty lists) and an empty finding list; whenever the
liability-cap rule yields nothing both liability fields stay unset; and
when the combined pattern matches but the comma-stripped amount string
fails to parse (the only fallible step, guarded by `try/except` in the
source), the rule yields nothing instead of an error — exercised
concretely on the text "liability cap comma", where the pattern matches with amount
string ",".  The model functions are total by construction, mirroring
that the source never raises on malformed-but-present text. -/
theorem extraction_audit_graceful :
    extract_with_rules [] =
      ⟨[], none, none, none, none, none, none, none, none, none, none, []⟩ ∧
    audit_with_rules [] = [] ∧
    (∀ text : List Char, extract_liability_cap_rule text = none →
      (extract_with_rules text).liability_cap_amount = none ∧
      (extract_with_rules text).liability_cap_currency = none) ∧
    (∀ (text : List Char) (m : MatchInfo),
      searchFrom (extLiabilityPat text.length) text = some m →
      parseDecimal (((capsGet m.mcaps 2).getD []).filter (fun c => !(c == ','))) = none →
      extract_liability_cap_rule text = none) ∧
    ((searchFrom (extLiabilityPat "liability cap ,".toList.length)
        "liability cap ,".toList).isSome ∧
      (extract_with_rules "liability cap ,".toList).liability_cap_amount = none ∧
      (extract_with_rules "liability cap ,".toList).liability_cap_currency = none) := by
  refine ⟨by decide, by decide, ?_, ?_, by decide, by decide, by decide⟩
  · intro text h
    rw [extract_with_rules]
    simp [h]
  · intro text m hm hp
    rw [extract_liability_cap_rule]
    simp only [hm, hp]

/-- Concrete witness for C6 at the text "x" (no liability-cap match, both
fields unset). -/
theorem extraction_audit_graceful_witness :
    (extract_with_rules "x".toList).liability_cap_amount = none ∧
    (extract_with_rules "x".toList).liability_cap_currency = none :=
  extraction_audit_graceful.2.2.1 "x".toList (by decide)

/-- C9: with the chat client configured, when retrieval returns no chunks
`RAGService.answer_question` returns exactly the fixed refusal string
and an empty citation list without invoking the chat-completion service:
the result is the same for every generator `gen` and the invocation flag
is `false`. -/
theorem answer_question_empty_retrieval (question : List Char)
    (gen : List Char → Except (List Char) (List Char)) :
    answer_question true question [] gen
      = .ok ((refusalAnswer, []), false) := by
  rfl

/-- C10: when the combined liability-cap pattern matches without
capturing a currency token and the amount parses, the extractor sets
`liability_cap_currency` to the fabricated default `"USD"` (and the
amount to the parsed value) — so `"USD"` in the output does not imply
the contract text states a currency. -/
theorem liability_currency_default (text : List Char) (m : MatchInfo) (a : Rat)
    (hm : searchFrom (extLiabilityPat text.length) text = some m)
    (hc : capsGet m.mcaps 1 = none)
    (hp : parseDecimal (((capsGet m.mcaps 2).getD []).filter (fun c => !(c == ','))) = some a) :
    (extract_with_rules text).liability_cap_currency = some "USD".toList ∧
    (extract_with_rules text).liability_cap_amount = some a := by
  have hrule : extract_liability_cap_rule text = some (a, "USD".toList) := by
    rw [extract_liability_cap_rule]
    simp only [hm, hc, hp, pyOrStr]
  rw [extract_with_rules]
  simp [hrule]

/-- Concrete witness for C10 at the text "liability cap 100", whose match
captures no currency token. -/
theorem liability_currency_default_witness :
    (extract_with_rules "liability cap 100".toList).liability_cap_currency
      = some "USD".toList ∧
    (extract_with_rules "liability cap 100".toList).liability_cap_amount
      = some 100 :=
  liability_currency_default "liability cap 100".toList
    ⟨0, 17, [(2, ['1', '0', '0'])]⟩ 100 (by decide) (by decide) (by decide)
